import Mathlib

/-
  Verification development for the clip utility (C++ sources: src/main.cpp,
  src/utils.cpp, include/utils.hpp).

  The C++ code is shallowly embedded: std::string becomes String (List Char
  underneath), C++ int becomes Int with the 32-bit range made explicit where
  std::stoi can throw std::out_of_range, doubles (the bounding-box extent)
  become Rat, and the effectful parts (directory contents, metadata files,
  the GDAL clip primitive) become an explicit environment record.  A C++
  function that can throw an uncaught exception is embedded with an explicit
  "thrown" result constructor, since an uncaught exception terminates the
  process.
-/

namespace Clip

/- ---------------- character classes ---------------- -/

/-- Whitespace characters trimmed by the metadata parser: the C++ code uses
the set " \t" with find_first_not_of / find_last_not_of. -/
def isWS (c : Char) : Bool := c == ' ' || c == '\t'

/-- Whitespace skipped by std::stoi (strtol, C locale): space, \t, \n,
vertical tab, form feed, \r. -/
def isSpaceChar (c : Char) : Bool :=
  c == ' ' || c == '\t' || c == '\n' || c == Char.ofNat 11 || c == Char.ofNat 12 || c == '\r'

/-- Decimal digit test. -/
def isDigitChar (c : Char) : Bool := '0' ≤ c && c ≤ '9'

/-- Path separators recognised by splitPath: find_last_of of the two-char
set containing a slash and a backslash. -/
def isSep (c : Char) : Bool := c == '/' || c == '\\'

/- ---------------- generic list helpers mirroring std::string ops -------- -/

/-- Does the first list start with the second?  Mirrors the comparison
performed by std::string::compare(0, n, prefixStr) == 0 (the count is
clamped to the string size, so a short string simply fails the test). -/
def startsWithL : List Char → List Char → Bool
  | _, [] => true
  | [], _ :: _ => false
  | c :: cs, p :: ps => c == p && startsWithL cs ps

/-- Substring containment: hay.find(pat) != npos in C++. -/
def containsL : List Char → List Char → Bool
  | [], pat => startsWithL [] pat
  | c :: rest, pat => startsWithL (c :: rest) pat || containsL rest pat

/-- Numeric value of a list of decimal digit characters, accumulated the way
strtol accumulates digits. -/
def digitsToNat (ds : List Char) : Nat :=
  ds.foldl (fun n c => 10 * n + (c.toNat - 48)) 0

/-- Model of std::stoi on the tail of a parse: take the maximal run of
digits; no digits means std::invalid_argument, a value outside the 32-bit
int range means std::out_of_range; both are modelled as none. -/
def stoiTail (sign : Int) (t : List Char) : Option Int :=
  let ds := t.takeWhile isDigitChar
  if ds.isEmpty then none
  else
    let v : Int := sign * (digitsToNat ds : Int)
    if v < -2147483648 ∨ 2147483647 < v then none else some v

/-- Model of std::stoi (base 10): skip leading whitespace, read an optional
sign, then digits.  Returns none exactly when the C++ call throws. -/
def stoiModel (s : List Char) : Option Int :=
  let t := s.dropWhile isSpaceChar
  match t with
  | [] => none
  | c :: r =>
    if c = '-' then stoiTail (-1) r
    else if c = '+' then stoiTail 1 r
    else stoiTail 1 (c :: r)

/-- std::string::back() of the C++ code; main validates the directory
strings nonempty before any call, so the default value for the empty
string is never observable in the modelled runs. -/
def strBack (s : String) : Char := s.data.getLastD ' '

/- ---------------- utils.cpp : split_by_commas ---------------- -/

/-- Loop body of split_by_commas: the accumulating token is pushed when a
comma is met (only if nonempty) and once more after the loop. -/
def sbcAux : List Char → List Char → List String
  | [], token => if token.isEmpty then [] else [String.mk token]
  | c :: rest, token =>
    if c = ',' then
      if token.isEmpty then sbcAux rest [] else String.mk token :: sbcAux rest []
    else sbcAux rest (token ++ [c])

/-- Embedding of split_by_commas (utils.cpp lines 37-60). -/
def split_by_commas (input : String) : List String := sbcAux input.data []

/- ---------------- utils.cpp : splitPath ---------------- -/

/-- PathParts of include/utils.hpp.  In C++ the members are
default-constructed to empty strings. -/
structure PathParts where
  directory : String
  basename : String
  stem : String
  extension : String

/-- Split a list at the LAST element satisfying p, keeping that element:
this is the substr pair around std::string::find_last_of.  none when no
element satisfies p. -/
def breakLast (p : Char → Bool) : List Char → Option (List Char × Char × List Char)
  | [] => none
  | c :: cs =>
    match breakLast p cs with
    | some (pre, s, post) => some (c :: pre, s, post)
    | none => if p c then some ([], c, cs) else none

/-- Second half of splitPath: split a basename at the last dot.  The C++
extension is basename.substr(dotPos), so it keeps the dot. -/
def mkParts (dir base : List Char) : PathParts :=
  match breakLast (fun c => c == '.') base with
  | none => ⟨String.mk dir, String.mk base, String.mk base, ""⟩
  | some (pre, _, post) =>
      ⟨String.mk dir, String.mk base, String.mk pre, String.mk ('.' :: post)⟩

/-- Embedding of splitPath (utils.cpp lines 82-104). -/
def splitPath (path : String) : PathParts :=
  match breakLast isSep path.data with
  | none => mkParts [] path.data
  | some (pre, _, post) => mkParts pre post

/- ---------------- utils.cpp : EPSG helpers ---------------- -/

/-- Embedding of getEPSGFromUTMZone (utils.cpp lines 246-257).  In C++ the
hemisphere flag is a defaulted parameter (false); here it is explicit and
the one call site in main passes false. -/
def getEPSGFromUTMZone (zone : Int) (isSouthernHemisphere : Bool) : String :=
  if zone < 1 ∨ zone > 60 then ""
  else "EPSG:" ++ toString (if isSouthernHemisphere then 32700 + zone else 32600 + zone)

/-- Embedding of parseEPSG (utils.cpp lines 312-323): prefix test with
compare(0, 5, "EPSG:"), then std::stoi on the rest with every exception
caught and turned into -1. -/
def parseEPSG (epsgStr : String) : Int :=
  if startsWithL epsgStr.data ("EPSG:").data then
    match stoiModel (epsgStr.data.drop 5) with
    | some v => v
    | none => -1
  else -1

/- ---------------- utils.cpp : stripString ---------------- -/

/-- Embedding of stripString (utils.cpp lines 222-243): trim whitespace at
both ends, then remove at most one leading and one trailing double quote. -/
def stripString (input : List Char) : List Char :=
  let r1 := input.dropWhile isWS
  let r2 := (r1.reverse.dropWhile isWS).reverse
  let r3 := if r2.head? = some '"' then r2.tail else r2
  if r3.getLast? = some '"' then r3.dropLast else r3

/- ---------------- utils.cpp : extractProjectionInfo ---------------- -/

/-- Result of running extractProjectionInfo: either a normal return
carrying the bool result plus the final values of the two by-reference
out-parameters, or an uncaught C++ exception (which terminates the
process, there being no handler anywhere on the call path). -/
inductive ExtractResult where
  | ok (found : Bool) (projection : List Char) (utmZone : Int)
  | thrown
deriving DecidableEq

/-- The per-line trim of extractProjectionInfo (utils.cpp line 186):
line.substr(line.find_first_not_of(" \t"), line.find_last_not_of(" \t") + 1).
When the line is empty or all-whitespace, find_first_not_of returns npos
and substr(npos, ...) throws std::out_of_range: modelled as none.
Otherwise substr clamps the count to the string size. -/
def trimLineCpp (line : List Char) : Option (List Char) :=
  match line.findIdx? (fun c => !isWS c) with
  | none => none
  | some first =>
    let lastPlus1 :=
      (match line.reverse.findIdx? (fun c => !isWS c) with
       | some i => line.length - 1 - i
       | none => 0) + 1
    some ((line.drop first).take lastPlus1)

/-- The value part of a metadata line: line.substr(line.find("=") + 1).
When no equals sign is present, npos + 1 wraps around to 0 in size_t
arithmetic, so substr(0) returns the whole line. -/
def afterEq (l : List Char) : List Char :=
  match l.findIdx? (fun c => c == '=') with
  | some i => l.drop (i + 1)
  | none => l

/-- The getline loop of extractProjectionInfo (utils.cpp lines 184-213),
threading the projection and utmZone out-parameters.  A line containing
"MAP_PROJECTION" assigns projection; a line containing "UTM_ZONE" runs
std::stoi on the value (an exception escapes uncaught); when both are
set the loop breaks and the function returns true. -/
def extractLoop : List (List Char) → List Char → Int → ExtractResult
  | [], proj, zone => ExtractResult.ok (!proj.isEmpty && zone != 0) proj zone
  | line :: rest, proj, zone =>
    match trimLineCpp line with
    | none => ExtractResult.thrown
    | some l =>
      let proj2 := if containsL l ("MAP_PROJECTION").data then stripString (afterEq l) else proj
      if containsL l ("UTM_ZONE").data then
        match stoiModel (afterEq l) with
        | none => ExtractResult.thrown
        | some z =>
          if !proj2.isEmpty && z != 0 then ExtractResult.ok true proj2 z
          else extractLoop rest proj2 z
      else
        if !proj2.isEmpty && zone != 0 then ExtractResult.ok true proj2 zone
        else extractLoop rest proj2 zone

/-- Embedding of extractProjectionInfo (utils.cpp lines 168-220).  The
argument is the file content as lines, none when the stream fails to open
(the function then returns false).  The caller in main passes projection
initialised to the empty string and utm_zone initialised to 0. -/
def extractProjectionInfo (file : Option (List String)) : ExtractResult :=
  match file with
  | none => ExtractResult.ok false [] 0
  | some lines => extractLoop (lines.map String.data) [] 0

/- ---------------- utils.cpp : locateMetadataFile ---------------- -/

/-- Embedding of locateMetadataFile (utils.cpp lines 148-166): truncate the
raster filename to its first 40 characters, append "_MTL.txt", join with
the directory (inserting a slash when the directory does not already end
in one), and return the empty string when the file does not exist. -/
def locateMetadataFile (fileEx : String → Bool) (dirPath tifFilename : String) : String :=
  let base := String.mk (tifFilename.data.take 40)
  let metadataFilename :=
    if strBack dirPath ≠ '/' then dirPath ++ "/" ++ base ++ "_MTL.txt"
    else dirPath ++ base ++ "_MTL.txt"
  if fileEx metadataFilename then metadataFilename else ""

/- ---------------- main.cpp : driver embedding ---------------- -/

/-- The bounding box of main.cpp (four doubles), modelled over the
rationals. -/
structure BBox where
  minX : ℚ
  minY : ℚ
  maxX : ℚ
  maxY : ℚ

/-- The one-time inflation of the extent in main.cpp lines 177-180:
minX -= 31; minY -= 31; maxX += 31; maxY += 31.  These variables are
never assigned again for the rest of main. -/
def inflateExtent (b : BBox) : BBox :=
  ⟨b.minX - 31, b.minY - 31, b.maxX + 31, b.maxY + 31⟩

/-- The configuration main has established before the driver loop starts:
validated command-line flags, the comma-split dataset list, and the sorted
directory listing. -/
structure Config where
  input_dir : String
  output_dir : String
  source_crs : String
  label : String
  pattern : String
  datasets : List String
  files : List String

/-- The external world of the driver loop: the content of each metadata
file path (none when the file does not exist or cannot be opened, matching
the ifstream-based fileExists check), and the success of the GDAL clip
primitive for given input path, output path, box and EPSG code. -/
structure Env where
  meta : String → Option (List String)
  clipOk : String → String → BBox → Int → Bool

/-- How the run of main ends: normal completion, EXIT_FAILURE from an
unparsable EPSG code, EXIT_FAILURE from a failed clip, or abnormal
termination by an uncaught exception out of the metadata parser. -/
inductive RunExit where
  | success
  | epsgFail
  | clipFail
  | crashed
deriving DecidableEq

/-- A record of one invocation of clipRasterByBBox, together with the CRS
state around it: crsBefore is the value of the source_crs variable when the
file's iteration began, metaZone the UTM zone when metadata extraction
succeeded, crsUsed the value of source_crs after the possible metadata
override (the value the EPSG code is parsed from and carried to later
files). -/
structure ClipCall where
  band : String
  fname : String
  crsBefore : String
  crsUsed : String
  metaZone : Option Int
  inFile : String
  outFile : String
  epsg : Int
  bbox : BBox

/-- The three skip tests of main.cpp lines 199-220: the optional free-text
pattern, the "_band" filter, and the ".tif" extension check. -/
def passesFilters (cfg : Config) (band fname : String) : Bool :=
  (cfg.pattern == "" || containsL fname.data cfg.pattern.data)
  && containsL fname.data ("_" ++ band).data
  && ((splitPath fname).extension == ".tif")

/-- Outcome of the metadata block of main.cpp lines 226-240 for one file:
none when extractProjectionInfo throws (terminating the process), some
(some zone) when the metadata path is nonempty and extraction returns
true, some none otherwise (fall back to the current source CRS). -/
def metaResolve (env : Env) (mpath : String) : Option (Option Int) :=
  if mpath = "" then some none
  else
    match extractProjectionInfo (env.meta mpath) with
    | ExtractResult.thrown => none
    | ExtractResult.ok true _ z => some (some z)
    | ExtractResult.ok false _ _ => some none

/-- The CRS update of main.cpp lines 230-236: build a candidate from the
UTM zone (hemisphere fixed to Northern at the call site), and replace the
source CRS when the candidate is nonempty and differs from it. -/
def resolveCRS (crs : String) (metaZone : Option Int) : String :=
  match metaZone with
  | none => crs
  | some z =>
    let temp := getEPSGFromUTMZone z false
    if temp ≠ "" ∧ crs ≠ temp then temp else crs

/-- The input path construction of main.cpp lines 249-252: a slash is
inserted exactly when input_dir does not end in one. -/
def buildInFile (input_dir stem ext : String) : String :=
  if strBack input_dir ≠ '/' then input_dir ++ "/" ++ stem ++ ext
  else input_dir ++ stem ++ ext

/-- The output path construction of main.cpp lines 254-257.  Note: the
condition tested is strBack input_dir (main.cpp line 255 reads
input_dir.back), not the output directory, exactly as in the source. -/
def buildOutFile (input_dir output_dir stem label ext : String) : String :=
  if strBack input_dir ≠ '/' then output_dir ++ "/" ++ stem ++ label ++ ext
  else output_dir ++ stem ++ label ++ ext

/-- The nested driver loop of main.cpp lines 192-269, flattened over the
(band, filename) pairs it visits in order; crs threads the mutable
source_crs variable.  Returns the clip invocations performed and how the
run ended.  Any EXIT_FAILURE return or uncaught exception leaves both
loops at once, so the remaining pairs are dropped. -/
def runPairs (env : Env) (cfg : Config) (bbox : BBox) :
    List (String × String) → String → List ClipCall × RunExit
  | [], _ => ([], RunExit.success)
  | (band, fname) :: rest, crs =>
    if passesFilters cfg band fname then
      match metaResolve env (locateMetadataFile (fun p => (env.meta p).isSome) cfg.input_dir fname) with
      | none => ([], RunExit.crashed)
      | some mz =>
        let crsUsed := resolveCRS crs mz
        let epsg := parseEPSG crsUsed
        if epsg = -1 then ([], RunExit.epsgFail)
        else
          let parts := splitPath fname
          let inF := buildInFile cfg.input_dir parts.stem parts.extension
          let outF := buildOutFile cfg.input_dir cfg.output_dir parts.stem cfg.label parts.extension
          let call : ClipCall := ⟨band, fname, crs, crsUsed, mz, inF, outF, epsg, bbox⟩
          if env.clipOk inF outF bbox epsg then
            let r := runPairs env cfg bbox rest crsUsed
            (call :: r.1, r.2)
          else ([call], RunExit.clipFail)
    else runPairs env cfg bbox rest crs

/-- The iteration order of the two nested loops: every dataset in order,
and for each one every file of the sorted listing. -/
def pairsOf (cfg : Config) : List (String × String) :=
  cfg.datasets.flatMap (fun b => cfg.files.map (fun f => (b, f)))

/-- The whole driver phase of main: inflate the extracted extent once, then
run the loops starting from the configured source CRS. -/
def runClip (env : Env) (cfg : Config) (extent : BBox) : List ClipCall × RunExit :=
  runPairs env cfg (inflateExtent extent) (pairsOf cfg) cfg.source_crs

/-- The (band, filename) pairs that pass all three filters: the files the
spec calls matched. -/
def matchedPairs (cfg : Config) : List (String × String) :=
  (pairsOf cfg).filter (fun p => passesFilters cfg p.1 p.2)

/-- The source-CRS chain: each recorded clip call starts from the CRS the
previous one ended with, the first from the given initial value. -/
def crsChain (crs0 : String) : List ClipCall → Bool
  | [] => true
  | c :: cs => (c.crsBefore == crs0) && crsChain c.crsUsed cs

/- ---------------- spec-level definitions ---------------- -/

/-- Spec-level definition of comma splitting, written from the spec words
"comma-split a string into ... tokens preserving order": the comma-free
segments of the string, in order, empty segments included (the code is then
claimed to keep exactly the non-empty ones). -/
def commaTokens : List Char → List (List Char)
  | [] => [[]]
  | c :: rest =>
    if c = ',' then [] :: commaTokens rest
    else (commaTokens rest).modifyHead (fun t => c :: t)

/- ---------------- helper lemmas ---------------- -/

theorem commaTokens_ne_nil (l : List Char) : commaTokens l ≠ [] := by
  induction l with
  | nil => simp [commaTokens]
  | cons c rest ih =>
    by_cases hc : c = ','
    · simp [commaTokens, hc]
    · obtain ⟨t, ts, h⟩ := List.exists_cons_of_ne_nil ih
      simp [commaTokens, hc, h]

theorem sbcAux_eq_commaTokens :
    ∀ (l acc : List Char),
      sbcAux l acc =
        (((commaTokens l).modifyHead (fun t => acc ++ t)).filter
          (fun x => !x.isEmpty)).map String.mk := by
  intro l
  induction l with
  | nil =>
    intro acc
    rcases acc with _ | ⟨a, as⟩ <;> simp [sbcAux, commaTokens]
  | cons c rest ih =>
    intro acc
    by_cases hc : c = ','
    · subst hc
      obtain ⟨t', ts', h'⟩ := List.exists_cons_of_ne_nil (commaTokens_ne_nil rest)
      have hr := ih []
      rw [h'] at hr
      simp only [List.modifyHead, List.nil_append] at hr
      rcases acc with _ | ⟨a, as⟩ <;>
        simp [sbcAux, hr, h', commaTokens, List.modifyHead]
    · obtain ⟨t', ts', h'⟩ := List.exists_cons_of_ne_nil (commaTokens_ne_nil rest)
      have hr := ih (acc ++ [c])
      rw [h'] at hr
      simp only [List.modifyHead] at hr
      simp only [sbcAux, if_neg hc, commaTokens, h', List.modifyHead]
      rw [hr]
      simp [List.append_assoc]

theorem breakLast_some {p : Char → Bool} :
    ∀ {l pre post : List Char} {c : Char}, breakLast p l = some (pre, c, post) →
      l = pre ++ c :: post ∧ p c = true := by
  intro l
  induction l with
  | nil => intro pre post c h; simp [breakLast] at h
  | cons a as ih =>
    intro pre post c h
    simp only [breakLast] at h
    cases hb : breakLast p as with
    | some x =>
      obtain ⟨pre', c', post'⟩ := x
      rw [hb] at h
      simp only [Option.some.injEq, Prod.mk.injEq] at h
      obtain ⟨h1, h2, h3⟩ := h
      obtain ⟨hl, hp⟩ := ih hb
      subst h1 h2 h3
      exact ⟨by rw [hl]; rfl, hp⟩
    | none =>
      rw [hb] at h
      by_cases hp : p a
      · simp only [hp, if_pos] at h
        simp only [Option.some.injEq, Prod.mk.injEq] at h
        obtain ⟨h1, h2, h3⟩ := h
        subst h1 h2 h3
        exact ⟨rfl, hp⟩
      · simp [hp] at h

theorem mkParts_directory (d b : List Char) : (mkParts d b).directory = String.mk d := by
  unfold mkParts
  cases hb : breakLast (fun c => c == '.') b with
  | none => rfl
  | some x => obtain ⟨pre, c, post⟩ := x; rfl

theorem mkParts_basename (d b : List Char) : (mkParts d b).basename = String.mk b := by
  unfold mkParts
  cases hb : breakLast (fun c => c == '.') b with
  | none => rfl
  | some x => obtain ⟨pre, c, post⟩ := x; rfl

theorem string_mk_append (a b : List Char) :
    String.mk a ++ String.mk b = String.mk (a ++ b) := rfl

theorem string_mk_append_empty (b : List Char) : String.mk b ++ "" = String.mk b := by
  have h : ("" : String) = String.mk [] := rfl
  rw [h, string_mk_append, List.append_nil]

theorem mkParts_stem_ext (d b : List Char) :
    (mkParts d b).basename = (mkParts d b).stem ++ (mkParts d b).extension := by
  unfold mkParts
  cases hb : breakLast (fun c => c == '.') b with
  | none => exact (string_mk_append_empty b).symm
  | some x =>
    obtain ⟨pre, c, post⟩ := x
    obtain ⟨hl, hp⟩ := breakLast_some hb
    have hc : c = '.' := by simpa using hp
    subst hc
    show String.mk b = String.mk pre ++ String.mk ('.' :: post)
    rw [string_mk_append, hl]

theorem mkParts_no_dot (d b : List Char)
    (h : b.all (fun c => !(c == '.')) = true) : (mkParts d b).extension = "" := by
  unfold mkParts
  cases hb : breakLast (fun c => c == '.') b with
  | none => rfl
  | some x =>
    obtain ⟨pre, c, post⟩ := x
    obtain ⟨hl, hp⟩ := breakLast_some hb
    have hc : c = '.' := by simpa using hp
    subst hc
    exfalso
    have hmem : '.' ∈ b := by rw [hl]; simp
    simp only [List.all_eq_true] at h
    have := h '.' hmem
    simp at this

/- ---------------- digit character facts ---------------- -/

theorem digit_char_facts {c : Char} (h : isDigitChar c = true) :
    isSpaceChar c = false ∧ c ≠ '-' ∧ c ≠ '+' := by
  simp only [isDigitChar, Bool.and_eq_true, decide_eq_true_eq] at h
  obtain ⟨h1, h2⟩ := h
  refine ⟨?_, ?_, ?_⟩
  · simp only [isSpaceChar, Bool.or_eq_false_iff]
    refine ⟨⟨⟨⟨⟨?_, ?_⟩, ?_⟩, ?_⟩, ?_⟩, ?_⟩ <;>
      { rw [beq_eq_false_iff_ne]; rintro rfl; exact absurd h1 (by decide) }
  · rintro rfl; exact absurd h1 (by decide)
  · rintro rfl; exact absurd h1 (by decide)

theorem takeWhile_all_append {p : Char → Bool} :
    ∀ (d rest : List Char), (∀ c ∈ d, p c = true) →
      (∀ c, rest.head? = some c → p c = false) →
      (d ++ rest).takeWhile p = d := by
  intro d
  induction d with
  | nil =>
    intro rest _ h2
    rcases rest with _ | ⟨r, rs⟩
    · rfl
    · simp [List.takeWhile_cons, h2 r rfl]
  | cons a as ih =>
    intro rest h1 h2
    have ha : p a = true := h1 a (List.mem_cons_self a as)
    simp only [List.cons_append, List.takeWhile_cons, ha, if_true]
    rw [ih rest (fun c hc => h1 c (List.mem_cons_of_mem a hc)) h2]

/- ---------------- claim theorems : C3 ---------------- -/

/-- Claim C3, counterexample: the claim says a non-numeric suffix after the
code yields -1, but parseEPSG on "EPSG:32615abc" returns 32615, because
std::stoi stops at the first non-digit without failing. -/
theorem c3_suffix_counterexample :
    parseEPSG "EPSG:32615abc" = 32615 ∧ ¬ parseEPSG "EPSG:32615abc" = -1 := by
  decide

/-- What std::stoi sees after its whitespace skip and optional single sign:
used to say when no integer at all can be parsed from a remainder. -/
def stripSign (l : List Char) : List Char :=
  match l with
  | [] => []
  | c :: r => if c = '-' then r else if c = '+' then r else c :: r

/-- Claim C3 as amended: parseEPSG returns the integer read from the
digits following "EPSG:" (any non-numeric suffix after the digits is
ignored rather than causing failure), and returns -1 for a wrong prefix
and also when no integer can be parsed from the remainder (after the
whitespace skip and optional sign of std::stoi, no digit follows);
"EPSG:32615" yields 32615, "32615" yields -1, "EPSG:32615abc" yields
32615, and "EPSG:abc" yields -1. -/
theorem c3_parseEPSG_amended :
    (∀ s : String, startsWithL s.data (("EPSG:").data) = false → parseEPSG s = -1) ∧
    (∀ d rest : List Char, d ≠ [] → (∀ c ∈ d, isDigitChar c = true) →
      (∀ c, rest.head? = some c → isDigitChar c = false) →
      digitsToNat d ≤ 2147483647 →
      parseEPSG (String.mk ('E' :: 'P' :: 'S' :: 'G' :: ':' :: (d ++ rest))) =
        ((digitsToNat d : Nat) : Int)) ∧
    (∀ t : List Char,
      (∀ c, (stripSign (t.dropWhile isSpaceChar)).head? = some c → isDigitChar c = false) →
      parseEPSG (String.mk ('E' :: 'P' :: 'S' :: 'G' :: ':' :: t)) = -1) ∧
    parseEPSG "EPSG:32615" = 32615 ∧
    parseEPSG "32615" = -1 ∧
    parseEPSG "EPSG:32615abc" = 32615 ∧
    parseEPSG "EPSG:abc" = -1 := by
  refine ⟨?_, ?_, ?_, by decide, by decide, by decide, by decide⟩
  · intro s h
    simp [parseEPSG, h]
  · intro d rest hne hd hr hle
    obtain ⟨c, d', rfl⟩ := List.exists_cons_of_ne_nil hne
    have hc : isDigitChar c = true := hd c (List.mem_cons_self c d')
    obtain ⟨hs, hm, hp⟩ := digit_char_facts hc
    have htake := takeWhile_all_append (c :: d') rest hd hr
    have hvnn : (0 : Int) ≤ ((digitsToNat (c :: d') : Nat) : Int) := Int.ofNat_nonneg _
    have hvle : ((digitsToNat (c :: d') : Nat) : Int) ≤ 2147483647 := by exact_mod_cast hle
    simp only [parseEPSG, startsWithL, List.cons_append, beq_self_eq_true, Bool.true_and,
      List.drop_succ_cons, List.drop_zero]
    simp only [List.cons_append] at htake
    simp only [stoiModel, List.dropWhile_cons, hs, Bool.false_eq_true, if_false,
      if_neg hm, if_neg hp, stoiTail, htake, List.isEmpty_cons, one_mul]
    have hcond : ¬ (((digitsToNat (c :: d') : Nat) : Int) < -2147483648 ∨
        (2147483647 : Int) < ((digitsToNat (c :: d') : Nat) : Int)) := by
      push_neg
      exact ⟨by omega, hvle⟩
    rw [if_neg hcond]
    simp
  · intro t h
    have hnone : stoiModel t = none := by
      simp only [stoiModel]
      rcases hu : t.dropWhile isSpaceChar with _ | ⟨c, r⟩
      · rfl
      · rw [hu] at h
        by_cases hm : c = '-'
        · subst hm
          simp only [stripSign, if_pos rfl] at h
          have hds : r.takeWhile isDigitChar = [] := by
            rcases r with _ | ⟨x, xs⟩
            · rfl
            · simp [List.takeWhile_cons, h x rfl]
          simp [stoiTail, hds]
        · by_cases hp : c = '+'
          · subst hp
            simp only [stripSign, if_neg hm, if_pos rfl] at h
            have hds : r.takeWhile isDigitChar = [] := by
              rcases r with _ | ⟨x, xs⟩
              · rfl
              · simp [List.takeWhile_cons, h x rfl]
            simp [stoiTail, hds, hm]
          · simp only [stripSign, if_neg hm, if_neg hp] at h
            have hc : isDigitChar c = false := h c rfl
            simp [stoiTail, hm, hp, List.takeWhile_cons, hc]
    simp only [parseEPSG, startsWithL, beq_self_eq_true, Bool.true_and,
      List.drop_succ_cons, List.drop_zero, hnone]
    simp

/-- Claim C3, witness: the amended theorem applied at the digit list of
32615 with an empty suffix, and at the digit-free remainder abc. -/
theorem c3_parseEPSG_amended_witness :
    parseEPSG (String.mk ('E' :: 'P' :: 'S' :: 'G' :: ':' ::
      (['3', '2', '6', '1', '5'] ++ []))) =
      ((digitsToNat ['3', '2', '6', '1', '5'] : Nat) : Int) ∧
    parseEPSG (String.mk ('E' :: 'P' :: 'S' :: 'G' :: ':' :: ['a', 'b', 'c'])) = -1 :=
  ⟨c3_parseEPSG_amended.2.1 ['3', '2', '6', '1', '5'] []
      (by decide) (by decide) (by decide) (by decide),
    c3_parseEPSG_amended.2.2.1 ['a', 'b', 'c'] (by decide)⟩

/- ---------------- claim theorems : C4 ---------------- -/

/-- Claim C4: getEPSGFromUTMZone returns "EPSG:" followed by 32600+zone
(Northern) or 32700+zone (Southern) whenever the zone is between 1 and 60,
and the empty string otherwise. -/
theorem c4_getEPSGFromUTMZone_spec (zone : Int) (south : Bool) :
    getEPSGFromUTMZone zone south =
      if 1 ≤ zone ∧ zone ≤ 60 then
        "EPSG:" ++ toString (if south then 32700 + zone else 32600 + zone)
      else "" := by
  unfold getEPSGFromUTMZone
  split_ifs <;> first | rfl | omega

/- ---------------- claim theorems : C5 ---------------- -/

/-- Claim C5: splitPath always yields basename = stem ++ extension, a
basename without a dot yields an empty extension, and directory joined
with basename (re-inserting the one separator character removed by the
split, when there was one) reconstructs the original path. -/
theorem c5_splitPath_spec (path : String) :
    (splitPath path).basename = (splitPath path).stem ++ (splitPath path).extension ∧
    ((splitPath path).basename.data.all (fun c => !(c == '.')) = true →
      (splitPath path).extension = "") ∧
    ((splitPath path).directory = "" ∧ (splitPath path).basename = path ∨
      ∃ c, isSep c = true ∧
        (splitPath path).directory ++ String.mk [c] ++ (splitPath path).basename = path) := by
  unfold splitPath
  cases hb : breakLast isSep path.data with
  | none =>
    refine ⟨mkParts_stem_ext _ _, ?_, Or.inl ⟨mkParts_directory _ _, ?_⟩⟩
    · intro h
      apply mkParts_no_dot
      rw [mkParts_basename] at h
      exact h
    · exact mkParts_basename _ _
  | some x =>
    obtain ⟨pre, c, post⟩ := x
    obtain ⟨hl, hsep⟩ := breakLast_some hb
    refine ⟨mkParts_stem_ext _ _, ?_, Or.inr ⟨c, hsep, ?_⟩⟩
    · intro h
      apply mkParts_no_dot
      rw [mkParts_basename] at h
      exact h
    · rw [mkParts_directory, mkParts_basename, string_mk_append, string_mk_append,
        List.append_assoc, List.singleton_append, ← hl]

/-- Claim C5, witness: a path without separator or dot, so the no-dot
hypothesis of the second conjunct is discharged concretely. -/
theorem c5_splitPath_witness :
    (splitPath "ab").basename.data.all (fun c => !(c == '.')) = true ∧
    (splitPath "ab").extension = "" :=
  ⟨by decide, (c5_splitPath_spec "ab").2.1 (by decide)⟩

/- ---------------- claim theorems : C6 ---------------- -/

/-- Claim C6: split_by_commas returns exactly the non-empty comma-separated
tokens of its input in order, with no trimming; in particular "a,,b, c"
gives the tokens a, b and space-c. -/
theorem c6_split_by_commas_spec :
    (∀ s : String, split_by_commas s =
      ((commaTokens s.data).filter (fun t => !t.isEmpty)).map String.mk) ∧
    split_by_commas "a,,b, c" = ["a", "b", " c"] := by
  constructor
  · intro s
    obtain ⟨t', ts', h'⟩ := List.exists_cons_of_ne_nil (commaTokens_ne_nil s.data)
    rw [split_by_commas, sbcAux_eq_commaTokens, h']
    simp [List.modifyHead]
  · decide

/- ---------------- driver loop lemmas ---------------- -/

theorem runPairs_mem (env : Env) (cfg : Config) (bbox : BBox) :
    ∀ (pairs : List (String × String)) (crs : String) (c : ClipCall),
      c ∈ (runPairs env cfg bbox pairs crs).1 →
        c.bbox = bbox ∧
        c.crsUsed = resolveCRS c.crsBefore c.metaZone ∧
        passesFilters cfg c.band c.fname = true := by
  intro pairs
  induction pairs with
  | nil => intro crs c hc; simp [runPairs] at hc
  | cons p rest ih =>
    obtain ⟨band, fname⟩ := p
    intro crs c hc
    cases hp : passesFilters cfg band fname with
    | false => simp only [runPairs, hp, Bool.false_eq_true, if_false] at hc; exact ih crs c hc
    | true =>
      simp only [runPairs, hp, if_true] at hc
      split at hc
      · simp at hc
      · split at hc
        · simp at hc
        · split at hc
          · rcases List.mem_cons.mp hc with hceq | hcm
            · subst hceq
              exact ⟨rfl, rfl, hp⟩
            · exact ih _ c hcm
          · rcases List.mem_singleton.mp hc with hceq
            subst hceq
            exact ⟨rfl, rfl, hp⟩

theorem runPairs_chain (env : Env) (cfg : Config) (bbox : BBox) :
    ∀ (pairs : List (String × String)) (crs : String),
      crsChain crs (runPairs env cfg bbox pairs crs).1 = true := by
  intro pairs
  induction pairs with
  | nil => intro crs; rfl
  | cons p rest ih =>
    obtain ⟨band, fname⟩ := p
    intro crs
    cases hp : passesFilters cfg band fname with
    | false => simp only [runPairs, hp, Bool.false_eq_true, if_false]; exact ih crs
    | true =>
      simp only [runPairs, hp, if_true]
      split
      · rfl
      · split
        · rfl
        · split
          · simp only [crsChain, beq_self_eq_true, Bool.true_and]
            exact ih _
          · simp [crsChain]

theorem runPairs_prefixOfMatched (env : Env) (cfg : Config) (bbox : BBox) :
    ∀ (pairs : List (String × String)) (crs : String),
      ((runPairs env cfg bbox pairs crs).1.map (fun c => (c.band, c.fname))).isPrefixOf
        (pairs.filter (fun p => passesFilters cfg p.1 p.2)) = true := by
  intro pairs
  induction pairs with
  | nil => intro crs; rfl
  | cons p rest ih =>
    obtain ⟨band, fname⟩ := p
    intro crs
    cases hp : passesFilters cfg band fname with
    | false =>
      simp only [runPairs, hp, Bool.false_eq_true, if_false, List.filter_cons, if_false]
      exact ih crs
    | true =>
      simp only [runPairs, hp, if_true, List.filter_cons]
      split
      · simp [List.isPrefixOf]
      · split
        · simp [List.isPrefixOf]
        · split
          · simp only [List.map_cons, List.isPrefixOf, beq_self_eq_true, Bool.true_and]
            exact ih _
          · simp [List.isPrefixOf]

theorem runPairs_clipFail (env : Env) (cfg : Config) (bbox : BBox) :
    ∀ (pairs : List (String × String)) (crs : String),
      (runPairs env cfg bbox pairs crs).2 = RunExit.clipFail →
      ∃ c, (runPairs env cfg bbox pairs crs).1.getLast? = some c ∧
        env.clipOk c.inFile c.outFile c.bbox c.epsg = false := by
  intro pairs
  induction pairs with
  | nil => intro crs h; simp [runPairs] at h
  | cons p rest ih =>
    obtain ⟨band, fname⟩ := p
    intro crs h
    cases hp : passesFilters cfg band fname with
    | false =>
      simp only [runPairs, hp, Bool.false_eq_true, if_false] at h ⊢
      exact ih crs h
    | true =>
      simp only [runPairs, hp, if_true] at h ⊢
      split at h
      · simp at h
      · split at h
        · simp at h
        · rename_i mz hmz hepsg
          split at h
          · rename_i hclip
            simp only [] at h
            obtain ⟨c, hlast, hfalse⟩ := ih _ h
            refine ⟨c, ?_, hfalse⟩
            rw [if_neg hepsg, if_pos hclip]
            rcases hl : (runPairs env cfg bbox rest (resolveCRS crs mz)).1 with _ | ⟨d, ds⟩
            · rw [hl] at hlast
              simp at hlast
            · rw [hl] at hlast
              simp only [hl, List.getLast?_cons_cons]
              exact hlast
          · rename_i hclip
            simp only [if_neg hepsg, if_neg hclip]
            simp only [Bool.not_eq_true] at hclip
            exact ⟨_, rfl, hclip⟩

/- ---------------- concrete environments for evaluation ---------------- -/

/-- An input directory with no metadata files at all. -/
def mtMeta : String → Option (List String) := fun _ => none

/-- Environment whose clip primitive always succeeds and with no metadata
files. -/
def envPlain : Env := ⟨mtMeta, fun _ _ _ _ => true⟩

/-- Configuration exposing the output-path bug: the input directory ends
with a slash while the output directory does not. -/
def cfgSlash : Config := ⟨"in/", "out", "EPSG:32615", "_c", "", ["B1"], ["x_B1.tif"]⟩

/-- The mask extent of the end-to-end scenario in the spec. -/
def extSquare : BBox := ⟨100, 100, 200, 200⟩

/-- Environment with a metadata file carrying UTM zone 12 next to the first
raster file. -/
def envZone12 : Env :=
  ⟨fun p => if p = "in/x1_B1.tif_MTL.txt"
      then some ["MAP_PROJECTION = \"UTM\"", "UTM_ZONE = 12"] else none,
    fun _ _ _ _ => true⟩

/-- Two files of the same band, metadata only for the first. -/
def cfgTwo : Config := ⟨"in/", "out/", "EPSG:32615", "", "", ["B1"], ["x1_B1.tif", "x2_B1.tif"]⟩

/-- The first clip call performed by runClip envZone12 cfgTwo extSquare:
the metadata zone 12 overrides the configured source CRS. -/
def callZone12 : ClipCall :=
  ⟨"B1", "x1_B1.tif", "EPSG:32615", "EPSG:32612", some 12,
    "in/x1_B1.tif", "out/x1_B1.tif", 32612, inflateExtent extSquare⟩

/-- The second clip call of the same run: the overridden CRS is carried
over, no metadata for this file. -/
def callCarry : ClipCall :=
  ⟨"B1", "x2_B1.tif", "EPSG:32612", "EPSG:32612", none,
    "in/x2_B1.tif", "out/x2_B1.tif", 32612, inflateExtent extSquare⟩

/-- Environment whose clip primitive fails exactly on the second file. -/
def envFail2 : Env := ⟨mtMeta, fun i _ _ _ => !(i == "in/x2_B1.tif")⟩

/-- Three files of the same band. -/
def cfgThree : Config :=
  ⟨"in/", "out/", "EPSG:32615", "", "", ["B1"], ["x1_B1.tif", "x2_B1.tif", "x3_B1.tif"]⟩

/-- Environment whose only metadata file has a malformed UTM_ZONE value. -/
def envBadZone : Env :=
  ⟨fun p => if p = "in/x_B1.tif_MTL.txt" then some ["UTM_ZONE = abc"] else none,
    fun _ _ _ _ => true⟩

/-- The single clip call of runClip envPlain cfgSlash extSquare. -/
def callSlash : ClipCall :=
  ⟨"B1", "x_B1.tif", "EPSG:32615", "EPSG:32615", none,
    "in/x_B1.tif", "outx_B1_c.tif", 32615, inflateExtent extSquare⟩

/- ---------------- claim theorems : C1 ---------------- -/

/-- Claim C1 (code bug): the driver builds the input path keyed on the
input directory as claimed, but the separator decision for the output path
also tests the input directory (main.cpp line 255), not the output
directory; with input directory "in/" and output directory "out" the run
emits the output path "outx_B1_c.tif" while the claim requires
"out/x_B1_c.tif". -/
theorem c1_output_path_ignores_output_dir :
    (runClip envPlain cfgSlash extSquare).1.map ClipCall.inFile = ["in/x_B1.tif"] ∧
    (runClip envPlain cfgSlash extSquare).1.map ClipCall.outFile = ["outx_B1_c.tif"] ∧
    strBack cfgSlash.output_dir ≠ '/' ∧
    "outx_B1_c.tif" ≠ "out/x_B1_c.tif" := by
  refine ⟨rfl, rfl, by decide, by decide⟩

/- ---------------- claim theorems : C2 ---------------- -/

/-- Claim C2 (code bug): on a metadata line whose UTM_ZONE value is
malformed, extractProjectionInfo does not return false: std::stoi throws
an uncaught exception (modelled as thrown), which terminates the run
instead of falling back to the previous CRS; a well-formed file and an
unopenable file behave as the claim says, and in the driver the malformed
file ends the run as crashed with no clip performed. -/
theorem c2_malformed_zone_terminates :
    extractProjectionInfo (some ["UTM_ZONE = abc"]) = ExtractResult.thrown ∧
    extractProjectionInfo (some ["MAP_PROJECTION = \"UTM\"", "UTM_ZONE = 15"]) =
      ExtractResult.ok true ("UTM").data 15 ∧
    extractProjectionInfo none = ExtractResult.ok false [] 0 ∧
    (runClip envBadZone cfgSlash extSquare).2 = RunExit.crashed ∧
    (runClip envBadZone cfgSlash extSquare).1 = [] := by
  refine ⟨by decide, by decide, by decide, rfl, rfl⟩

/- ---------------- claim theorems : C7 ---------------- -/

/-- Claim C7: in every run, each clip call starts from the source CRS left
by the previous one (the first from the configured source CRS, with no
reset between files), and the CRS it uses is the metadata adoption rule
applied to that starting CRS. -/
theorem c7_crs_carry_over (env : Env) (cfg : Config) (extent : BBox) :
    crsChain cfg.source_crs (runClip env cfg extent).1 = true ∧
    ∀ c ∈ (runClip env cfg extent).1, c.crsUsed = resolveCRS c.crsBefore c.metaZone := by
  constructor
  · exact runPairs_chain env cfg (inflateExtent extent) (pairsOf cfg) cfg.source_crs
  · intro c hc
    exact (runPairs_mem env cfg (inflateExtent extent) (pairsOf cfg) cfg.source_crs c hc).2.1

/-- Claim C7, witness: a run of two matched files where the first file's
metadata zone 12 overrides "EPSG:32615" and the second file starts from
the overridden value. -/
theorem c7_crs_carry_over_witness :
    crsChain "EPSG:32615" (runClip envZone12 cfgTwo extSquare).1 = true ∧
    callZone12.crsUsed = resolveCRS callZone12.crsBefore callZone12.metaZone ∧
    (runClip envZone12 cfgTwo extSquare).1 = [callZone12, callCarry] := by
  have hrun : (runClip envZone12 cfgTwo extSquare).1 = [callZone12, callCarry] := rfl
  refine ⟨(c7_crs_carry_over envZone12 cfgTwo extSquare).1, ?_, hrun⟩
  exact (c7_crs_carry_over envZone12 cfgTwo extSquare).2 callZone12
    (by rw [hrun]; exact List.mem_cons_self _ _)

/- ---------------- claim theorems : C8 ---------------- -/

/-- Claim C8: the clip calls of a run always form a prefix of the matched
(band, file) pairs in order, and when the run exits with a clip failure
the last performed call is the one whose clip primitive failed — nothing
after it is processed. -/
theorem c8_clip_failure_aborts (env : Env) (cfg : Config) (extent : BBox) :
    ((runClip env cfg extent).1.map (fun c => (c.band, c.fname))).isPrefixOf
      (matchedPairs cfg) = true ∧
    ((runClip env cfg extent).2 = RunExit.clipFail →
      ∃ c, (runClip env cfg extent).1.getLast? = some c ∧
        env.clipOk c.inFile c.outFile c.bbox c.epsg = false) := by
  constructor
  · exact runPairs_prefixOfMatched env cfg (inflateExtent extent) (pairsOf cfg) cfg.source_crs
  · exact runPairs_clipFail env cfg (inflateExtent extent) (pairsOf cfg) cfg.source_crs

/-- Claim C8, witness: three matching files with the clip primitive failing
on the second; the run ends in clipFail, only the first two files are
processed and the third never appears. -/
theorem c8_clip_failure_aborts_witness :
    (runClip envFail2 cfgThree extSquare).2 = RunExit.clipFail ∧
    (runClip envFail2 cfgThree extSquare).1.map ClipCall.fname =
      ["x1_B1.tif", "x2_B1.tif"] ∧
    (∃ c, (runClip envFail2 cfgThree extSquare).1.getLast? = some c ∧
      envFail2.clipOk c.inFile c.outFile c.bbox c.epsg = false) :=
  ⟨rfl, rfl, (c8_clip_failure_aborts envFail2 cfgThree extSquare).2 rfl⟩

/- ---------------- claim theorems : C9 ---------------- -/

/-- Claim C9: every clip call of a run uses exactly the once-inflated
extent (31 units on every side, never modified afterwards), and the box
(100,100)-(200,200) inflates to (69,69)-(231,231). -/
theorem c9_extent_inflation (env : Env) (cfg : Config) (extent : BBox) :
    (∀ c ∈ (runClip env cfg extent).1, c.bbox = inflateExtent extent) ∧
    inflateExtent ⟨100, 100, 200, 200⟩ = ⟨69, 69, 231, 231⟩ := by
  constructor
  · intro c hc
    exact (runPairs_mem env cfg (inflateExtent extent) (pairsOf cfg) cfg.source_crs c hc).1
  · simp only [inflateExtent]
    norm_num

/-- Claim C9, witness: the single call of a concrete run carries the
inflated extent. -/
theorem c9_extent_inflation_witness :
    callSlash ∈ (runClip envPlain cfgSlash extSquare).1 ∧
    callSlash.bbox = inflateExtent extSquare := by
  have hrun : (runClip envPlain cfgSlash extSquare).1 = [callSlash] := rfl
  have hmem : callSlash ∈ (runClip envPlain cfgSlash extSquare).1 := by
    rw [hrun]; exact List.mem_cons_self _ _
  exact ⟨hmem, (c9_extent_inflation envPlain cfgSlash extSquare).1 callSlash hmem⟩

/- ---------------- claim theorems : C10 ---------------- -/

/-- Claim C10: in every run, each clip call's CRS is either the unchanged
starting CRS or a Northern-hemisphere code EPSG:32600+zone with zone in
1..60; a Southern code 32700+zone is never produced, because main calls
the conversion with the hemisphere flag defaulted to Northern. -/
theorem c10_northern_hemisphere_only (env : Env) (cfg : Config) (extent : BBox) :
    ∀ c ∈ (runClip env cfg extent).1,
      c.crsUsed = c.crsBefore ∨
      ∃ z : Int, 1 ≤ z ∧ z ≤ 60 ∧ c.crsUsed = "EPSG:" ++ toString (32600 + z) := by
  intro c hc
  have hadopt :=
    (runPairs_mem env cfg (inflateExtent extent) (pairsOf cfg) cfg.source_crs c hc).2.1
  rw [hadopt]
  cases hmz : c.metaZone with
  | none => exact Or.inl rfl
  | some z =>
    simp only [resolveCRS]
    split
    · rename_i hcond
      obtain ⟨hne, _⟩ := hcond
      unfold getEPSGFromUTMZone at hne ⊢
      split at hne
      · exact absurd rfl hne
      · rename_i hz
        push_neg at hz
        rw [if_neg (by omega : ¬ (z < 1 ∨ z > 60))]
        exact Or.inr ⟨z, by omega, by omega, rfl⟩
    · exact Or.inl rfl

/-- Claim C10, witness: the concrete zone-12 run produces the
Northern-hemisphere override EPSG:32612. -/
theorem c10_northern_hemisphere_witness :
    (callZone12.crsUsed = callZone12.crsBefore ∨
      ∃ z : Int, 1 ≤ z ∧ z ≤ 60 ∧ callZone12.crsUsed = "EPSG:" ++ toString (32600 + z)) ∧
    callZone12.crsUsed = "EPSG:32612" := by
  have hrun : (runClip envZone12 cfgTwo extSquare).1 = [callZone12, callCarry] := rfl
  refine ⟨c10_northern_hemisphere_only envZone12 cfgTwo extSquare callZone12 ?_, rfl⟩
  rw [hrun]
  exact List.mem_cons_self _ _

end Clip
